import Mathlib

/-!
Verification of the geometric-intersection and material-shading core of the
rust_ray_tracer_in_one_weekend repository.

Embedding conventions:
* `f32` arithmetic is idealised as exact real arithmetic (the spec's §2 calls
  Vector3 "exact-arithmetic"); division by zero follows Lean's `x / 0 = 0`.
* The ambient `fastrand` generator is modelled as explicit parameters: the
  unit-sphere sample produced by `random_in_unit_sphere` is passed to the
  scatter functions, and the uniform float draw of `Dielectric::scatter` is an
  explicit real argument `r` with `r < 1` (the generator yields values in [0,1)).
* `vec3.rs`, `hit.rs` and `sphere.rs` are not part of the provided sources;
  their definitions below are modelled from the spec, as their doc comments say.
* The `unreachable!("Refraction not possible")` panic in `Dielectric::scatter`
  is modelled as the `none` value of the returned `Option`: the source wraps its
  normal results in `Some`, so `none` marks exactly the panic.
-/

noncomputable section

/-- Modelled from the spec: Vector3 (§3, §4.1) — three real components; the
source file vec3.rs is not in scope. -/
@[ext]
structure Vec3 where
  x : ℝ
  y : ℝ
  z : ℝ

instance : Add Vec3 := ⟨fun a b => ⟨a.x + b.x, a.y + b.y, a.z + b.z⟩⟩

instance : Sub Vec3 := ⟨fun a b => ⟨a.x - b.x, a.y - b.y, a.z - b.z⟩⟩

instance : Neg Vec3 := ⟨fun a => ⟨-a.x, -a.y, -a.z⟩⟩

instance : SMul ℝ Vec3 := ⟨fun k a => ⟨k * a.x, k * a.y, k * a.z⟩⟩

instance : HDiv Vec3 ℝ Vec3 := ⟨fun a k => ⟨a.x / k, a.y / k, a.z / k⟩⟩

@[simp] theorem Vec3.add_x (a b : Vec3) : (a + b).x = a.x + b.x := rfl
@[simp] theorem Vec3.add_y (a b : Vec3) : (a + b).y = a.y + b.y := rfl
@[simp] theorem Vec3.add_z (a b : Vec3) : (a + b).z = a.z + b.z := rfl
@[simp] theorem Vec3.sub_x (a b : Vec3) : (a - b).x = a.x - b.x := rfl
@[simp] theorem Vec3.sub_y (a b : Vec3) : (a - b).y = a.y - b.y := rfl
@[simp] theorem Vec3.sub_z (a b : Vec3) : (a - b).z = a.z - b.z := rfl
@[simp] theorem Vec3.neg_x (a : Vec3) : (-a).x = -a.x := rfl
@[simp] theorem Vec3.neg_y (a : Vec3) : (-a).y = -a.y := rfl
@[simp] theorem Vec3.neg_z (a : Vec3) : (-a).z = -a.z := rfl
@[simp] theorem Vec3.smul_x (k : ℝ) (a : Vec3) : (k • a).x = k * a.x := rfl
@[simp] theorem Vec3.smul_y (k : ℝ) (a : Vec3) : (k • a).y = k * a.y := rfl
@[simp] theorem Vec3.smul_z (k : ℝ) (a : Vec3) : (k • a).z = k * a.z := rfl
@[simp] theorem Vec3.div_x (a : Vec3) (k : ℝ) : (a / k).x = a.x / k := rfl
@[simp] theorem Vec3.div_y (a : Vec3) (k : ℝ) : (a / k).y = a.y / k := rfl
@[simp] theorem Vec3.div_z (a : Vec3) (k : ℝ) : (a / k).z = a.z / k := rfl

@[simp] theorem Vec3.add_mk (a b c d e f : ℝ) :
    (⟨a, b, c⟩ : Vec3) + ⟨d, e, f⟩ = ⟨a + d, b + e, c + f⟩ := rfl
@[simp] theorem Vec3.sub_mk (a b c d e f : ℝ) :
    (⟨a, b, c⟩ : Vec3) - ⟨d, e, f⟩ = ⟨a - d, b - e, c - f⟩ := rfl
@[simp] theorem Vec3.neg_mk (a b c : ℝ) :
    -(⟨a, b, c⟩ : Vec3) = ⟨-a, -b, -c⟩ := rfl
@[simp] theorem Vec3.smul_mk (k a b c : ℝ) :
    k • (⟨a, b, c⟩ : Vec3) = ⟨k * a, k * b, k * c⟩ := rfl
@[simp] theorem Vec3.div_mk (a b c k : ℝ) :
    (⟨a, b, c⟩ : Vec3) / k = ⟨a / k, b / k, c / k⟩ := rfl

/-- Modelled from the spec: dot product (§4.1), sum of component products. -/
def Vec3.dot (a b : Vec3) : ℝ := a.x * b.x + a.y * b.y + a.z * b.z

/-- Modelled from the spec: squared length (§4.1), self-dot. -/
def Vec3.squared_length (a : Vec3) : ℝ := a.dot a

/-- Modelled from the spec: length (§4.1), square root of the squared length. -/
def Vec3.length (a : Vec3) : ℝ := Real.sqrt a.squared_length

/-- Modelled from the spec: unit_vector (§4.1), self divided by length. -/
def Vec3.unit_vector (a : Vec3) : Vec3 := a / a.length

/-- Ray (src/ray.rs, lines 6-10): origin plus direction. -/
structure Ray where
  origin : Vec3
  direction : Vec3

/-- Ray::point_at_parameter (src/ray.rs, lines 23-25). -/
def Ray.point_at_parameter (r : Ray) (scalar_length : ℝ) : Vec3 :=
  r.origin + scalar_length • r.direction

/-- Modelled from the spec: HitRecord (§3) — parametric distance `t`, the
intersection point and the surface normal; hit.rs is not in scope. -/
structure HitRecord where
  t : ℝ
  point : Vec3
  normal : Vec3

/-- ScatterResult (src/material.rs, lines 23-27): attenuation and scattered ray.
The Cow borrow-vs-own distinction is dropped per spec §9 (no behaviour change). -/
structure ScatterResult where
  attenuation : Vec3
  scattered : Ray

/-- random_in_unit_sphere (src/material.rs, lines 11-21): rejection sampling of
`2·(u,v,w) - (1,1,1)` until the squared length is below one.  The ambient
fastrand generator is an explicit stream `draws`, and the unbounded loop is
fuel-bounded recursion (`none` = fuel exhausted before acceptance). -/
def random_in_unit_sphere (draws : ℕ → Vec3) : ℕ → Option Vec3
  | 0 => none
  | n + 1 =>
    let potential_point_in_unit_sphere : Vec3 := (2 : ℝ) • draws 0 - ⟨1, 1, 1⟩
    if potential_point_in_unit_sphere.squared_length < 1 then
      some potential_point_in_unit_sphere
    else
      random_in_unit_sphere (fun k => draws (k + 1)) n

/-- Lambertian material (src/material.rs, lines 50-53). -/
structure Lambertian where
  albedo : Vec3

/-- Lambertian::scatter (src/material.rs, lines 66-70); `rand` is the value the
source obtains from `random_in_unit_sphere()`. -/
def Lambertian.scatter (m : Lambertian) (ray_in : Ray) (hit_record : HitRecord)
    (rand : Vec3) : Option ScatterResult :=
  let target := hit_record.point + hit_record.normal + rand
  let scattered : Ray := ⟨hit_record.point, target - hit_record.point⟩
  some ⟨m.albedo, scattered⟩

/-- reflect (src/material.rs, lines 73-75). -/
def reflect (v n : Vec3) : Vec3 := v - (2 * v.dot n) • n

/-- Metal material (src/material.rs, lines 77-81). -/
structure Metal where
  albedo : Vec3
  fuzz : ℝ

/-- Metal::new (src/material.rs, lines 85-88): clamps fuzz below at 0 only. -/
def Metal.new (albedo : Vec3) (fuzz : ℝ) : Metal :=
  ⟨albedo, if fuzz < 0 then 0 else fuzz⟩

/-- Metal::scatter (src/material.rs, lines 98-106); `rand` is the value the
source obtains from `random_in_unit_sphere()`. -/
def Metal.scatter (m : Metal) (ray_in : Ray) (hit_record : HitRecord)
    (rand : Vec3) : Option ScatterResult :=
  let reflected := reflect ray_in.direction.unit_vector hit_record.normal
  let scattered : Ray := ⟨hit_record.point, reflected + m.fuzz • rand⟩
  if scattered.direction.dot hit_record.normal > 0 then
    some ⟨m.albedo, scattered⟩
  else
    none

/-- The `dt` term of refract (src/material.rs, line 111). -/
def refract_dt (v n : Vec3) : ℝ := v.unit_vector.dot n

/-- The discriminant of refract (src/material.rs, line 112). -/
def refract_discriminant (v n : Vec3) (ni_over_nt : ℝ) : ℝ :=
  1 - ni_over_nt * ni_over_nt * (1 - refract_dt v n * refract_dt v n)

/-- refract (src/material.rs, lines 109-118). -/
def refract (v n : Vec3) (ni_over_nt : ℝ) : Option Vec3 :=
  if refract_discriminant v n ni_over_nt > 0 then
    some (ni_over_nt • (v.unit_vector - refract_dt v n • n) -
      Real.sqrt (refract_discriminant v n ni_over_nt) • n)
  else
    none

/-- schlick (src/material.rs, lines 120-124); `powf(5.0)` on the nonnegative
regime is the fifth power. -/
def schlick (cosine ref_idx : ℝ) : ℝ :=
  let r0 := (1 - ref_idx) / (1 + ref_idx)
  let r0 := r0 * r0
  r0 + (1 - r0) * (1 - cosine) ^ (5 : ℕ)

/-- Dielectric material (src/material.rs, lines 126-129). -/
structure Dielectric where
  ref_idx : ℝ

/-- The outward normal picked by Dielectric::scatter (src/material.rs,
lines 141-147), first component of the branch tuple. -/
def Dielectric.outward_normal (d : Dielectric) (ray_in : Ray)
    (hit_record : HitRecord) : Vec3 :=
  if ray_in.direction.dot hit_record.normal > 0 then
    -hit_record.normal
  else
    hit_record.normal

/-- The index ratio picked by Dielectric::scatter (src/material.rs,
lines 141-147), second component of the branch tuple. -/
def Dielectric.ni_over_nt (d : Dielectric) (ray_in : Ray)
    (hit_record : HitRecord) : ℝ :=
  if ray_in.direction.dot hit_record.normal > 0 then
    d.ref_idx
  else
    1 / d.ref_idx

/-- The cosine picked by Dielectric::scatter (src/material.rs, lines 141-147),
third component of the branch tuple. -/
def Dielectric.cosine (d : Dielectric) (ray_in : Ray)
    (hit_record : HitRecord) : ℝ :=
  if ray_in.direction.dot hit_record.normal > 0 then
    d.ref_idx * ray_in.direction.dot hit_record.normal / ray_in.direction.length
  else
    -(ray_in.direction.dot hit_record.normal) / ray_in.direction.length

/-- Dielectric::scatter (src/material.rs, lines 138-163); `r` is the uniform
draw `fastrand::f32()` of line 154.  The source's single branch computing the
tuple (outward_normal, ni_over_nt, cosine) is split into the three helper
definitions above, each guarded by the identical condition.  The `unreachable!`
panic of line 158 is modelled as `none`; every non-panicking path returns
`some`. -/
def Dielectric.scatter (d : Dielectric) (ray_in : Ray) (hit_record : HitRecord)
    (r : ℝ) : Option ScatterResult :=
  let reflected := reflect ray_in.direction hit_record.normal
  let attenuation : Vec3 := ⟨1, 1, 1⟩
  let refraction_result :=
    refract ray_in.direction (d.outward_normal ray_in hit_record)
      (d.ni_over_nt ray_in hit_record)
  let reflect_probability :=
    if refraction_result.isSome then
      schlick (d.cosine ray_in hit_record) d.ref_idx
    else
      1
  if r < reflect_probability then
    some ⟨attenuation, ⟨hit_record.point, reflected⟩⟩
  else
    refraction_result.map fun refracted => ⟨attenuation, ⟨hit_record.point, refracted⟩⟩

/-- C9: `Ray::point_at_parameter(t)` returns `origin + t * direction`; the
function is pure by construction in this embedding (it reads the ray and builds
a fresh vector), so the call leaves the ray unchanged. -/
theorem claim_C9_point_at_parameter (r : Ray) (t : ℝ) :
    r.point_at_parameter t = r.origin + t • r.direction ∧
    (r.point_at_parameter t).x = r.origin.x + t * r.direction.x ∧
    (r.point_at_parameter t).y = r.origin.y + t * r.direction.y ∧
    (r.point_at_parameter t).z = r.origin.z + t * r.direction.z := by
  refine ⟨rfl, ?_, ?_, ?_⟩ <;> simp [Ray.point_at_parameter]

/-- C10: `Lambertian::scatter` ignores its `ray_in` parameter: two calls with
different incoming rays but the same hit record and the same random sample
return identical results. -/
theorem claim_C10_lambertian_ignores_ray (m : Lambertian) (ray_in ray_in' : Ray)
    (hit_record : HitRecord) (rand : Vec3) :
    m.scatter ray_in hit_record rand = m.scatter ray_in' hit_record rand := rfl

/-- C5: `Metal::new` stores fuzz 0 when the argument is negative and stores the
argument unchanged otherwise; in particular values above 1 are not clamped. -/
theorem claim_C5_metal_new_fuzz (albedo : Vec3) (fuzz : ℝ) :
    (fuzz < 0 → (Metal.new albedo fuzz).fuzz = 0) ∧
    (0 ≤ fuzz → (Metal.new albedo fuzz).fuzz = fuzz) ∧
    (Metal.new albedo fuzz).albedo = albedo := by
  refine ⟨fun h => ?_, fun h => ?_, rfl⟩
  · simp [Metal.new, h]
  · simp [Metal.new, not_lt.mpr h]

/-- Witness for C5 at fuzz = 2 (above 1, stored unchanged) and fuzz = -1
(clamped to 0). -/
theorem claim_C5_witness :
    (Metal.new ⟨1, 1, 1⟩ 2).fuzz = 2 ∧ (Metal.new ⟨1, 1, 1⟩ (-1)).fuzz = 0 :=
  ⟨(claim_C5_metal_new_fuzz ⟨1, 1, 1⟩ 2).2.1 (by norm_num),
   (claim_C5_metal_new_fuzz ⟨1, 1, 1⟩ (-1)).1 (by norm_num)⟩

/-- Accepted rejection-sampling results lie strictly inside the unit sphere. -/
theorem random_in_unit_sphere_sq_lt_one (fuel : ℕ) :
    ∀ (draws : ℕ → Vec3) (u : Vec3),
      random_in_unit_sphere draws fuel = some u → u.squared_length < 1 := by
  induction fuel with
  | zero => intro draws u h; simp [random_in_unit_sphere] at h
  | succ n ih =>
    intro draws u h
    rw [random_in_unit_sphere] at h
    split at h
    · cases h
      assumption
    · exact ih _ _ h

/-- C4: `Metal::scatter` returns `Some` exactly when the perturbed scattered
direction (reflection of the unit incoming direction plus fuzz times the
unit-sphere sample) has strictly positive dot product with the hit normal, and
the scattered result carries that very direction from the hit point with
attenuation equal to the albedo. -/
theorem claim_C4_metal_scatter (m : Metal) (ray_in : Ray)
    (hit_record : HitRecord) (rand : Vec3) :
    ((m.scatter ray_in hit_record rand).isSome ↔
      0 < (reflect ray_in.direction.unit_vector hit_record.normal +
        m.fuzz • rand).dot hit_record.normal) ∧
    (∀ res, m.scatter ray_in hit_record rand = some res →
      res = ⟨m.albedo, ⟨hit_record.point,
        reflect ray_in.direction.unit_vector hit_record.normal + m.fuzz • rand⟩⟩) := by
  unfold Metal.scatter
  by_cases h : 0 < (reflect ray_in.direction.unit_vector hit_record.normal +
      m.fuzz • rand).dot hit_record.normal
  · constructor
    · simp [h]
    · intro res hres
      simp only [gt_iff_lt, if_pos h] at hres
      cases hres
      rfl
  · constructor
    · simp [h]
    · intro res hres
      simp only [gt_iff_lt, if_neg h] at hres
      cases hres

/-- Witness for C4 at a normal-incidence ray with fuzz 0: the scattered
direction's dot with the normal is 1, so scatter returns `some`. -/
theorem claim_C4_witness :
    (Metal.scatter ⟨⟨1, 0, 0⟩, 0⟩ ⟨⟨0, 0, 0⟩, ⟨0, 0, -1⟩⟩
        ⟨1, ⟨0, 0, -1⟩, ⟨0, 0, 1⟩⟩ ⟨0, 0, 0⟩).isSome := by
  have h : 0 < (reflect (Vec3.unit_vector ⟨0, 0, -1⟩) ⟨0, 0, 1⟩ +
      (0 : ℝ) • (⟨0, 0, 0⟩ : Vec3)).dot ⟨0, 0, 1⟩ := by
    norm_num [reflect, Vec3.unit_vector, Vec3.length, Vec3.squared_length, Vec3.dot]
  exact (claim_C4_metal_scatter ⟨⟨1, 0, 0⟩, 0⟩ ⟨⟨0, 0, 0⟩, ⟨0, 0, -1⟩⟩
    ⟨1, ⟨0, 0, -1⟩, ⟨0, 0, 1⟩⟩ ⟨0, 0, 0⟩).1.mpr h

/-- C8: `refract` returns `none` if and only if the discriminant
`1 - ni_over_nt²·(1 - dt²)` is at most 0 (dt being the dot of the unit vector
of v with n), and otherwise returns the Snell-law refracted vector
`ni_over_nt·(unit(v) - dt·n) - √discriminant·n`. -/
theorem claim_C8_refract_none_iff (v n : Vec3) (ni_over_nt : ℝ) :
    (refract v n ni_over_nt = none ↔ refract_discriminant v n ni_over_nt ≤ 0) ∧
    (0 < refract_discriminant v n ni_over_nt →
      refract v n ni_over_nt = some (ni_over_nt • (v.unit_vector - refract_dt v n • n) -
        Real.sqrt (refract_discriminant v n ni_over_nt) • n)) := by
  unfold refract
  by_cases h : refract_discriminant v n ni_over_nt > 0
  · exact ⟨by simp [h, not_le.mpr h], fun _ => by simp [h]⟩
  · exact ⟨by simp [h, not_lt.mp h], fun h' => absurd h' h⟩

/-- Witness for C8: at v = (0,0,-1), n = (0,0,1), ratio 2/3 the discriminant is
1 > 0 and refract returns the stated vector. -/
theorem claim_C8_witness :
    0 < refract_discriminant ⟨0, 0, -1⟩ ⟨0, 0, 1⟩ (2 / 3) ∧
    refract ⟨0, 0, -1⟩ ⟨0, 0, 1⟩ (2 / 3) =
      some ((2 / 3 : ℝ) • (Vec3.unit_vector ⟨0, 0, -1⟩ -
        refract_dt ⟨0, 0, -1⟩ ⟨0, 0, 1⟩ • ⟨0, 0, 1⟩) -
        Real.sqrt (refract_discriminant ⟨0, 0, -1⟩ ⟨0, 0, 1⟩ (2 / 3)) • ⟨0, 0, 1⟩) := by
  have h : 0 < refract_discriminant ⟨0, 0, -1⟩ ⟨0, 0, 1⟩ (2 / 3) := by
    norm_num [refract_discriminant, refract_dt, Vec3.unit_vector, Vec3.length,
      Vec3.squared_length, Vec3.dot]
  exact ⟨h, (claim_C8_refract_none_iff ⟨0, 0, -1⟩ ⟨0, 0, 1⟩ (2 / 3)).2 h⟩

/-- C6: `Lambertian::scatter` always returns `Some`; the attenuation is the
albedo, the scattered ray starts at the hit point, and its direction is the hit
normal plus the rejection-sampled point, which lies inside the unit sphere. -/
theorem claim_C6_lambertian_scatter (m : Lambertian) (ray_in : Ray)
    (hit_record : HitRecord) (draws : ℕ → Vec3) (fuel : ℕ) (u : Vec3)
    (hu : random_in_unit_sphere draws fuel = some u) :
    ∃ res, m.scatter ray_in hit_record u = some res ∧
      res.attenuation = m.albedo ∧
      res.scattered.origin = hit_record.point ∧
      res.scattered.direction = hit_record.normal + u ∧
      u.squared_length < 1 := by
  refine ⟨_, rfl, rfl, rfl, ?_, random_in_unit_sphere_sq_lt_one fuel draws u hu⟩
  show (hit_record.point + hit_record.normal + u) - hit_record.point =
    hit_record.normal + u
  apply Vec3.ext <;> simp <;> ring

/-- Witness for C6: one draw of (1/2,1/2,1/2) is accepted immediately, yielding
the sample (0,0,0), and Lambertian scatter on it returns `some`. -/
theorem claim_C6_witness :
    random_in_unit_sphere (fun _ => ⟨1 / 2, 1 / 2, 1 / 2⟩) 1 = some ⟨0, 0, 0⟩ ∧
    ∃ res, Lambertian.scatter ⟨⟨1, 0, 0⟩⟩ ⟨⟨0, 0, 0⟩, ⟨0, 0, -1⟩⟩
        ⟨1, ⟨0, 0, -1⟩, ⟨0, 0, 1⟩⟩ ⟨0, 0, 0⟩ = some res ∧
      res.attenuation = (⟨1, 0, 0⟩ : Vec3) ∧
      res.scattered.origin = (⟨0, 0, -1⟩ : Vec3) ∧
      res.scattered.direction = (⟨0, 0, 1⟩ : Vec3) + (⟨0, 0, 0⟩ : Vec3) ∧
      Vec3.squared_length ⟨0, 0, 0⟩ < 1 := by
  have hdraw : random_in_unit_sphere (fun _ => ⟨1 / 2, 1 / 2, 1 / 2⟩) 1 =
      some ⟨0, 0, 0⟩ := by
    rw [random_in_unit_sphere]
    norm_num [Vec3.squared_length, Vec3.dot]
  exact ⟨hdraw, claim_C6_lambertian_scatter ⟨⟨1, 0, 0⟩⟩ ⟨⟨0, 0, 0⟩, ⟨0, 0, -1⟩⟩
    ⟨1, ⟨0, 0, -1⟩, ⟨0, 0, 1⟩⟩ _ 1 ⟨0, 0, 0⟩ hdraw⟩

/-- C1: with a random draw below 1 (as the [0,1) generator guarantees),
`Dielectric::scatter` never reaches the `unreachable!("Refraction not
possible")` branch (modelled as `none`): when `refract` returns `none` the
reflect probability is 1 and `r < 1` forces the reflection branch. -/
theorem claim_C1_dielectric_no_panic (d : Dielectric) (ray_in : Ray)
    (hit_record : HitRecord) (r : ℝ) (hr : r < 1) :
    (d.scatter ray_in hit_record r).isSome := by
  unfold Dielectric.scatter
  cases hR : refract ray_in.direction (d.outward_normal ray_in hit_record)
      (d.ni_over_nt ray_in hit_record) with
  | none => simp [hR, hr]
  | some v =>
    simp only [hR, Option.isSome_some, if_true, Option.map_some]
    split <;> simp

/-- Witness for C1 at a concrete dielectric, ray, hit record and draw 0 < 1. -/
theorem claim_C1_witness :
    (0 : ℝ) < 1 ∧
    (Dielectric.scatter ⟨3⟩ ⟨⟨0, 0, 0⟩, ⟨0, 0, -1⟩⟩
        ⟨1, ⟨0, 0, -1⟩, ⟨0, 0, 1⟩⟩ 0).isSome :=
  ⟨by norm_num, claim_C1_dielectric_no_panic ⟨3⟩ ⟨⟨0, 0, 0⟩, ⟨0, 0, -1⟩⟩
    ⟨1, ⟨0, 0, -1⟩, ⟨0, 0, 1⟩⟩ 0 (by norm_num)⟩

/-- C7: with a random draw below 1, `Dielectric::scatter` returns `Some` and
the attenuation in the result is always the color (1,1,1). -/
theorem claim_C7_dielectric_attenuation (d : Dielectric) (ray_in : Ray)
    (hit_record : HitRecord) (r : ℝ) (hr : r < 1) :
    ∃ res, d.scatter ray_in hit_record r = some res ∧
      res.attenuation = (⟨1, 1, 1⟩ : Vec3) := by
  unfold Dielectric.scatter
  cases hR : refract ray_in.direction (d.outward_normal ray_in hit_record)
      (d.ni_over_nt ray_in hit_record) with
  | none =>
    refine ⟨⟨⟨1, 1, 1⟩, ⟨hit_record.point, reflect ray_in.direction hit_record.normal⟩⟩, ?_, rfl⟩
    simp [hR, hr]
  | some v =>
    simp only [hR, Option.isSome_some, if_true, Option.map_some]
    split
    · exact ⟨_, rfl, rfl⟩
    · exact ⟨_, rfl, rfl⟩

/-- Witness for C7 at a concrete dielectric, ray, hit record and draw 1/2 < 1. -/
theorem claim_C7_witness :
    (1 / 2 : ℝ) < 1 ∧
    ∃ res, Dielectric.scatter ⟨3 / 2⟩ ⟨⟨0, 0, 0⟩, ⟨0, 0, -1⟩⟩
        ⟨1, ⟨0, 0, -1⟩, ⟨0, 0, 1⟩⟩ (1 / 2) = some res ∧
      res.attenuation = (⟨1, 1, 1⟩ : Vec3) :=
  ⟨by norm_num, claim_C7_dielectric_attenuation ⟨3 / 2⟩ ⟨⟨0, 0, 0⟩, ⟨0, 0, -1⟩⟩
    ⟨1, ⟨0, 0, -1⟩, ⟨0, 0, 1⟩⟩ (1 / 2) (by norm_num)⟩

/-- Modelled from the spec: Sphere (§3) — center and radius; sphere.rs is not
in scope. -/
structure Sphere where
  center : Vec3
  radius : ℝ

/-- Modelled from the spec (§4.4): the origin-minus-center vector of the
ray-sphere quadratic. -/
def Sphere.oc (s : Sphere) (ray : Ray) : Vec3 := ray.origin - s.center

/-- Modelled from the spec (§4.4): quadratic coefficient a = direction·direction. -/
def Sphere.qa (s : Sphere) (ray : Ray) : ℝ := ray.direction.dot ray.direction

/-- Modelled from the spec (§4.4): quadratic coefficient b = 2·(origin-C)·direction. -/
def Sphere.qb (s : Sphere) (ray : Ray) : ℝ := 2 * (s.oc ray).dot ray.direction

/-- Modelled from the spec (§4.4): quadratic coefficient
c = (origin-C)·(origin-C) - r². -/
def Sphere.qc (s : Sphere) (ray : Ray) : ℝ :=
  (s.oc ray).dot (s.oc ray) - s.radius * s.radius

/-- Modelled from the spec (§4.4): the discriminant b² - 4ac. -/
def Sphere.discriminant (s : Sphere) (ray : Ray) : ℝ :=
  s.qb ray * s.qb ray - 4 * s.qa ray * s.qc ray

/-- Modelled from the spec (§4.4): the smaller root (-b - √disc) / 2a. -/
def Sphere.root1 (s : Sphere) (ray : Ray) : ℝ :=
  (-s.qb ray - Real.sqrt (s.discriminant ray)) / (2 * s.qa ray)

/-- Modelled from the spec (§4.4): the larger root (-b + √disc) / 2a. -/
def Sphere.root2 (s : Sphere) (ray : Ray) : ℝ :=
  (-s.qb ray + Real.sqrt (s.discriminant ray)) / (2 * s.qa ray)

/-- Modelled from the spec (§4.4): the HitRecord built from an accepted root,
with point = R(root) and normal = (point - center) / radius. -/
def Sphere.hit_record_at (s : Sphere) (ray : Ray) (t : ℝ) : HitRecord :=
  ⟨t, ray.point_at_parameter t, (ray.point_at_parameter t - s.center) / s.radius⟩

/-- Modelled from the spec (§4.3, §4.4): Sphere's is_hit — no hit on negative
discriminant, otherwise the roots are tried in ascending order and the first
root strictly inside (t_min, t_max) is returned. -/
def Sphere.is_hit (s : Sphere) (ray : Ray) (t_min t_max : ℝ) : Option HitRecord :=
  if s.discriminant ray < 0 then
    none
  else if t_min < s.root1 ray ∧ s.root1 ray < t_max then
    some (s.hit_record_at ray (s.root1 ray))
  else if t_min < s.root2 ray ∧ s.root2 ray < t_max then
    some (s.hit_record_at ray (s.root2 ray))
  else
    none

/-- The quadratic's leading coefficient is a sum of squares. -/
theorem Sphere.qa_nonneg (s : Sphere) (ray : Ray) : 0 ≤ s.qa ray := by
  unfold Sphere.qa Vec3.dot
  have hx := mul_self_nonneg ray.direction.x
  have hy := mul_self_nonneg ray.direction.y
  have hz := mul_self_nonneg ray.direction.z
  linarith

/-- The smaller root really is the smaller one (also in the degenerate
zero-direction case, where both quotients collapse to 0). -/
theorem Sphere.root1_le_root2 (s : Sphere) (ray : Ray) :
    s.root1 ray ≤ s.root2 ray := by
  unfold Sphere.root1 Sphere.root2
  rcases eq_or_lt_of_le (s.qa_nonneg ray) with h | h
  · rw [← h]
    norm_num
  · have h2 : 0 < 2 * s.qa ray := by linarith
    exact (div_le_div_right h2).mpr (by linarith [Real.sqrt_nonneg (s.discriminant ray)])

/-- Exhaustive description of a successful sphere hit. -/
theorem Sphere.is_hit_some_cases (s : Sphere) (ray : Ray) (t_min t_max : ℝ)
    (h : HitRecord) (hh : s.is_hit ray t_min t_max = some h) :
    ¬s.discriminant ray < 0 ∧
    ((t_min < s.root1 ray ∧ s.root1 ray < t_max ∧
        h = s.hit_record_at ray (s.root1 ray)) ∨
      (¬(t_min < s.root1 ray ∧ s.root1 ray < t_max) ∧
        t_min < s.root2 ray ∧ s.root2 ray < t_max ∧
        h = s.hit_record_at ray (s.root2 ray))) := by
  unfold Sphere.is_hit at hh
  split at hh
  · cases hh
  · split at hh
    · cases hh
      exact ⟨by assumption, Or.inl ⟨by tauto, by tauto, rfl⟩⟩
    · split at hh
      · cases hh
        exact ⟨by assumption, Or.inr ⟨by assumption, by tauto, by tauto, rfl⟩⟩
      · cases hh

/-- A successful hit's parameter lies strictly inside the queried interval. -/
theorem Sphere.is_hit_t_bounds (s : Sphere) (ray : Ray) (t_min t_max : ℝ)
    (h : HitRecord) (hh : s.is_hit ray t_min t_max = some h) :
    t_min < h.t ∧ h.t < t_max := by
  rcases (s.is_hit_some_cases ray t_min t_max h hh).2 with ⟨h1, h2, rfl⟩ | ⟨_, h1, h2, rfl⟩ <;>
    exact ⟨h1, h2⟩

/-- Widening the upper bound preserves a successful hit unchanged. -/
theorem Sphere.is_hit_widen (s : Sphere) (ray : Ray) (t_min t_max' t_max : ℝ)
    (hle : t_max' ≤ t_max) (h : HitRecord)
    (hh : s.is_hit ray t_min t_max' = some h) :
    s.is_hit ray t_min t_max = some h := by
  obtain ⟨hd, hcases⟩ := s.is_hit_some_cases ray t_min t_max' h hh
  unfold Sphere.is_hit
  rcases hcases with ⟨h1, h2, rfl⟩ | ⟨hno1, h1, h2, rfl⟩
  · rw [if_neg hd, if_pos ⟨h1, by linarith⟩]
  · have hno1' : ¬(t_min < s.root1 ray ∧ s.root1 ray < t_max) := by
      rintro ⟨ha, hb⟩
      rcases not_and_or.mp hno1 with hc | hc
      · exact hc ha
      · have := s.root1_le_root2 ray
        push_neg at hc
        linarith
    rw [if_neg hd, if_neg hno1', if_pos ⟨h1, by linarith⟩]

/-- Narrowing the upper bound above the hit's parameter preserves the hit. -/
theorem Sphere.is_hit_narrow (s : Sphere) (ray : Ray) (t_min t_max' t_max : ℝ)
    (hle : t_max' ≤ t_max) (h : HitRecord)
    (hh : s.is_hit ray t_min t_max = some h) (hlt : h.t < t_max') :
    s.is_hit ray t_min t_max' = some h := by
  obtain ⟨hd, hcases⟩ := s.is_hit_some_cases ray t_min t_max h hh
  unfold Sphere.is_hit
  rcases hcases with ⟨h1, h2, rfl⟩ | ⟨hno1, h1, h2, rfl⟩
  · exact by rw [if_neg hd, if_pos ⟨h1, by simpa [Sphere.hit_record_at] using hlt⟩]
  · have hlt2 : s.root2 ray < t_max' := by simpa [Sphere.hit_record_at] using hlt
    have hno1' : ¬(t_min < s.root1 ray ∧ s.root1 ray < t_max') := by
      rintro ⟨ha, hb⟩
      exact hno1 ⟨ha, by linarith⟩
    rw [if_neg hd, if_neg hno1', if_pos ⟨h1, hlt2⟩]

/-- Both quadratic-formula values are genuine roots when the discriminant is
nonnegative and the leading coefficient is nonzero. -/
theorem quadratic_root_eval (a b c q t : ℝ) (ha : a ≠ 0)
    (hq : q * q = b * b - 4 * a * c)
    (ht : t = (-b - q) / (2 * a) ∨ t = (-b + q) / (2 * a)) :
    a * (t * t) + b * t + c = 0 := by
  rcases ht with h | h <;> subst h <;> field_simp <;>
    linear_combination 2 * a ^ 2 * hq

/-- The accepted roots of `Sphere.is_hit` satisfy the ray-sphere quadratic. -/
theorem Sphere.root_is_root (s : Sphere) (ray : Ray) (ha : s.qa ray ≠ 0)
    (hd : 0 ≤ s.discriminant ray) (t : ℝ)
    (ht : t = s.root1 ray ∨ t = s.root2 ray) :
    s.qa ray * (t * t) + s.qb ray * t + s.qc ray = 0 := by
  have hq : Real.sqrt (s.discriminant ray) * Real.sqrt (s.discriminant ray) =
      s.qb ray * s.qb ray - 4 * s.qa ray * s.qc ray := by
    rw [Real.mul_self_sqrt hd]
    rfl
  exact quadratic_root_eval (s.qa ray) (s.qb ray) (s.qc ray)
    (Real.sqrt (s.discriminant ray)) t ha hq ht

/-- A point of the ray whose parameter is a root of the quadratic lies exactly
on the sphere: its squared distance from the center is radius². -/
theorem Sphere.root_on_sphere (s : Sphere) (ray : Ray) (t : ℝ)
    (hroot : s.qa ray * (t * t) + s.qb ray * t + s.qc ray = 0) :
    (ray.point_at_parameter t - s.center).squared_length = s.radius * s.radius := by
  unfold Sphere.qa Sphere.qb Sphere.qc Sphere.oc Vec3.dot at hroot
  unfold Vec3.squared_length Vec3.dot Ray.point_at_parameter
  simp only [Vec3.add_x, Vec3.add_y, Vec3.add_z, Vec3.sub_x, Vec3.sub_y,
    Vec3.sub_z, Vec3.smul_x, Vec3.smul_y, Vec3.smul_z] at hroot ⊢
  linear_combination hroot

/-- Scalar division scales the squared length by the inverse square. -/
theorem Vec3.squared_length_div (v : Vec3) (k : ℝ) :
    (v / k).squared_length = v.squared_length / (k * k) := by
  rcases eq_or_ne k 0 with rfl | hk
  · simp [Vec3.squared_length, Vec3.dot]
  · unfold Vec3.squared_length Vec3.dot
    simp only [Vec3.div_x, Vec3.div_y, Vec3.div_z]
    field_simp

/-- A nonzero direction gives a strictly positive leading coefficient. -/
theorem Sphere.qa_pos (s : Sphere) (ray : Ray)
    (hdir : ray.direction ≠ (⟨0, 0, 0⟩ : Vec3)) : 0 < s.qa ray := by
  rcases lt_or_eq_of_le (s.qa_nonneg ray) with h | h
  · exact h
  · exfalso
    apply hdir
    have h' : ray.direction.x * ray.direction.x + ray.direction.y * ray.direction.y +
        ray.direction.z * ray.direction.z = 0 := by
      have : s.qa ray = ray.direction.x * ray.direction.x +
          ray.direction.y * ray.direction.y + ray.direction.z * ray.direction.z := rfl
      linarith [this ▸ h.symm]
    have hx : ray.direction.x = 0 := by
      nlinarith [mul_self_nonneg ray.direction.x, mul_self_nonneg ray.direction.y,
        mul_self_nonneg ray.direction.z]
    have hy : ray.direction.y = 0 := by
      nlinarith [mul_self_nonneg ray.direction.x, mul_self_nonneg ray.direction.y,
        mul_self_nonneg ray.direction.z]
    have hz : ray.direction.z = 0 := by
      nlinarith [mul_self_nonneg ray.direction.x, mul_self_nonneg ray.direction.y,
        mul_self_nonneg ray.direction.z]
    exact Vec3.ext hx hy hz

/-- C3 (amended): for every ray with nonzero direction and every sphere with
positive radius, `Sphere::is_hit` follows the quadratic algorithm — negative
discriminant means no hit, the two roots are tested in ascending order and the
first one strictly inside (t_min, t_max) is returned with point = R(root) and
normal = (point - center)/radius — and any returned hit lies exactly on the
sphere (|point - center| = radius) with a unit-length normal. -/
theorem claim_C3_sphere_is_hit (s : Sphere) (ray : Ray) (t_min t_max : ℝ)
    (hdir : ray.direction ≠ (⟨0, 0, 0⟩ : Vec3)) (hrad : 0 < s.radius) :
    (s.discriminant ray < 0 → s.is_hit ray t_min t_max = none) ∧
    s.root1 ray ≤ s.root2 ray ∧
    (0 ≤ s.discriminant ray →
      ((t_min < s.root1 ray ∧ s.root1 ray < t_max →
        s.is_hit ray t_min t_max = some (s.hit_record_at ray (s.root1 ray))) ∧
      (¬(t_min < s.root1 ray ∧ s.root1 ray < t_max) →
        t_min < s.root2 ray ∧ s.root2 ray < t_max →
        s.is_hit ray t_min t_max = some (s.hit_record_at ray (s.root2 ray))) ∧
      (¬(t_min < s.root1 ray ∧ s.root1 ray < t_max) →
        ¬(t_min < s.root2 ray ∧ s.root2 ray < t_max) →
        s.is_hit ray t_min t_max = none))) ∧
    (∀ h, s.is_hit ray t_min t_max = some h →
      t_min < h.t ∧ h.t < t_max ∧
      h.point = ray.point_at_parameter h.t ∧
      h.normal = (h.point - s.center) / s.radius ∧
      (h.point - s.center).length = s.radius ∧
      h.normal.length = 1) := by
  have hqa := s.qa_pos ray hdir
  refine ⟨fun h => by unfold Sphere.is_hit; rw [if_pos h], s.root1_le_root2 ray,
    fun hd => ⟨fun h1 => ?_, fun hno1 h2 => ?_, fun hno1 hno2 => ?_⟩, fun h hh => ?_⟩
  · unfold Sphere.is_hit
    rw [if_neg (not_lt.mpr hd), if_pos h1]
  · unfold Sphere.is_hit
    rw [if_neg (not_lt.mpr hd), if_neg hno1, if_pos h2]
  · unfold Sphere.is_hit
    rw [if_neg (not_lt.mpr hd), if_neg hno1, if_neg hno2]
  · obtain ⟨hdlt, hcases⟩ := s.is_hit_some_cases ray t_min t_max h hh
    have hd : 0 ≤ s.discriminant ray := not_lt.mp hdlt
    have hroot : s.qa ray * (h.t * h.t) + s.qb ray * h.t + s.qc ray = 0 := by
      rcases hcases with ⟨_, _, rfl⟩ | ⟨_, _, _, rfl⟩
      · exact s.root_is_root ray (ne_of_gt hqa) hd _ (Or.inl rfl)
      · exact s.root_is_root ray (ne_of_gt hqa) hd _ (Or.inr rfl)
    have hpoint : h.point = ray.point_at_parameter h.t := by
      rcases hcases with ⟨_, _, rfl⟩ | ⟨_, _, _, rfl⟩ <;> rfl
    have hnormal : h.normal = (h.point - s.center) / s.radius := by
      rcases hcases with ⟨_, _, rfl⟩ | ⟨_, _, _, rfl⟩ <;> rfl
    obtain ⟨hb1, hb2⟩ := s.is_hit_t_bounds ray t_min t_max h hh
    have hsq : (h.point - s.center).squared_length = s.radius * s.radius := by
      rw [hpoint]
      exact s.root_on_sphere ray h.t hroot
    have hlen : (h.point - s.center).length = s.radius := by
      unfold Vec3.length
      rw [hsq, Real.sqrt_mul_self (le_of_lt hrad)]
    refine ⟨hb1, hb2, hpoint, hnormal, hlen, ?_⟩
    unfold Vec3.length
    rw [hnormal, Vec3.squared_length_div, hsq,
      div_self (by positivity : s.radius * s.radius ≠ 0), Real.sqrt_one]

/-- Concrete sphere with a (degenerate, unrejected) negative radius. -/
def sphere_neg : Sphere := ⟨⟨0, 0, 0⟩, -1⟩

/-- Concrete ray aimed at `sphere_neg` from (0,0,2). -/
def ray_c3 : Ray := ⟨⟨0, 0, 2⟩, ⟨0, 0, -1⟩⟩

/-- C3 counterexample: for the (not rejected) sphere of radius -1, `is_hit`
returns a hit whose point is at distance 1, not -1 = radius, from the center —
so "for every ray and sphere, |hit.point - center| equals the radius" is false
as stated. -/
theorem claim_C3_counterexample :
    sphere_neg.is_hit ray_c3 0 100 = some ⟨1, ⟨0, 0, 1⟩, ⟨0, 0, -1⟩⟩ ∧
    ((⟨0, 0, 1⟩ : Vec3) - sphere_neg.center).length = 1 ∧
    sphere_neg.radius = -1 ∧ (1 : ℝ) ≠ -1 := by
  have hdisc : sphere_neg.discriminant ray_c3 = 4 := by
    norm_num [Sphere.discriminant, Sphere.qa, Sphere.qb, Sphere.qc, Sphere.oc,
      Vec3.dot, sphere_neg, ray_c3]
  have hsqrt : Real.sqrt 4 = 2 := by
    rw [show (4 : ℝ) = 2 ^ 2 by norm_num, Real.sqrt_sq (by norm_num : (0 : ℝ) ≤ 2)]
  have hroot1 : sphere_neg.root1 ray_c3 = 1 := by
    unfold Sphere.root1
    rw [hdisc, hsqrt]
    norm_num [Sphere.qa, Sphere.qb, Sphere.oc, Vec3.dot, sphere_neg, ray_c3]
  refine ⟨?_, ?_, rfl, by norm_num⟩
  · unfold Sphere.is_hit
    rw [hdisc, hroot1, if_neg (by norm_num), if_pos (by norm_num)]
    norm_num [Sphere.hit_record_at, Ray.point_at_parameter, sphere_neg, ray_c3]
  · norm_num [Vec3.length, Vec3.squared_length, Vec3.dot, sphere_neg, Real.sqrt_one]

/-- Concrete unit test sphere of radius 1/2 centered at (0,0,-1). -/
def sphere_half : Sphere := ⟨⟨0, 0, -1⟩, 1 / 2⟩

/-- Concrete ray from the origin towards (0,0,-1). -/
def ray_c3w : Ray := ⟨⟨0, 0, 0⟩, ⟨0, 0, -1⟩⟩

/-- Witness for C3 (amended) at the spec's §8 example: the direction is
nonzero, the radius 1/2 is positive, the ray hits at t = 1/2, and the hit point
is at distance exactly radius from the center. -/
theorem claim_C3_witness :
    ray_c3w.direction ≠ (⟨0, 0, 0⟩ : Vec3) ∧ (0 : ℝ) < sphere_half.radius ∧
    sphere_half.is_hit ray_c3w 0 100 = some ⟨1 / 2, ⟨0, 0, -1 / 2⟩, ⟨0, 0, 1⟩⟩ ∧
    ((⟨0, 0, -1 / 2⟩ : Vec3) - sphere_half.center).length = sphere_half.radius ∧
    Vec3.length (⟨0, 0, 1⟩ : Vec3) = 1 := by
  have hdir : ray_c3w.direction ≠ (⟨0, 0, 0⟩ : Vec3) := by
    intro h
    have := congrArg Vec3.z h
    norm_num [ray_c3w] at this
  have hrad : (0 : ℝ) < sphere_half.radius := by norm_num [sphere_half]
  have hdisc : sphere_half.discriminant ray_c3w = 1 := by
    norm_num [Sphere.discriminant, Sphere.qa, Sphere.qb, Sphere.qc, Sphere.oc,
      Vec3.dot, sphere_half, ray_c3w]
  have hroot1 : sphere_half.root1 ray_c3w = 1 / 2 := by
    unfold Sphere.root1
    rw [hdisc, Real.sqrt_one]
    norm_num [Sphere.qa, Sphere.qb, Sphere.oc, Vec3.dot, sphere_half, ray_c3w]
  have hhit : sphere_half.is_hit ray_c3w 0 100 =
      some ⟨1 / 2, ⟨0, 0, -1 / 2⟩, ⟨0, 0, 1⟩⟩ := by
    unfold Sphere.is_hit
    rw [hdisc, hroot1, if_neg (by norm_num), if_pos (by norm_num)]
    norm_num [Sphere.hit_record_at, Ray.point_at_parameter, sphere_half, ray_c3w]
  have hmain := (claim_C3_sphere_is_hit sphere_half ray_c3w 0 100 hdir hrad).2.2.2
    ⟨1 / 2, ⟨0, 0, -1 / 2⟩, ⟨0, 0, 1⟩⟩ hhit
  exact ⟨hdir, hrad, hhit, hmain.2.2.2.2.1, by simpa using hmain.2.2.2.2.2⟩

/-- Modelled from the spec: the incremental closest-hit loop of
HittableList::is_hit (§4.3) — iterate the members, narrowing the running
t-bound to the best hit's t found so far before querying the next member;
hit.rs is not in scope.  `best` is the best hit so far, `closest_so_far` the
current upper t-bound. -/
def hit_fold (ray : Ray) (t_min : ℝ) :
    List Sphere → ℝ → Option HitRecord → Option HitRecord
  | [], _, best => best
  | s :: rest, closest_so_far, best =>
    match s.is_hit ray t_min closest_so_far with
    | some hrec => hit_fold ray t_min rest hrec.t (some hrec)
    | none => hit_fold ray t_min rest closest_so_far best

/-- Modelled from the spec: HittableList::is_hit (§4.3); the member list is a
list of spheres, Sphere being the only Hittable implementor in scope. -/
def HittableList.is_hit (members : List Sphere) (ray : Ray)
    (t_min t_max : ℝ) : Option HitRecord :=
  hit_fold ray t_min members t_max none

/-- Unfolding equation of the fold on the empty member list. -/
theorem hit_fold_nil (ray : Ray) (t_min closest : ℝ) (best : Option HitRecord) :
    hit_fold ray t_min [] closest best = best := rfl

/-- Unfolding equation of the fold when the head member hits: the bound narrows
to the hit's t and the hit becomes the new best. -/
theorem hit_fold_cons_some (ray : Ray) (t_min : ℝ) (s : Sphere)
    (rest : List Sphere) (closest : ℝ) (best : Option HitRecord)
    (hrec : HitRecord) (hs : s.is_hit ray t_min closest = some hrec) :
    hit_fold ray t_min (s :: rest) closest best =
      hit_fold ray t_min rest hrec.t (some hrec) := by
  rw [hit_fold, hs]

/-- Unfolding equation of the fold when the head member misses. -/
theorem hit_fold_cons_none (ray : Ray) (t_min : ℝ) (s : Sphere)
    (rest : List Sphere) (closest : ℝ) (best : Option HitRecord)
    (hs : s.is_hit ray t_min closest = none) :
    hit_fold ray t_min (s :: rest) closest best =
      hit_fold ray t_min rest closest best := by
  rw [hit_fold, hs]

/-- Once the fold holds a best hit it never returns none. -/
theorem hit_fold_isSome (ray : Ray) (t_min : ℝ) (l : List Sphere) :
    ∀ (closest : ℝ) (h0 : HitRecord),
      (hit_fold ray t_min l closest (some h0)).isSome := by
  induction l with
  | nil => intro closest h0; rfl
  | cons s rest ih =>
    intro closest h0
    cases hs : s.is_hit ray t_min closest with
    | some hrec =>
      rw [hit_fold_cons_some ray t_min s rest closest (some h0) hrec hs]
      exact ih hrec.t hrec
    | none =>
      rw [hit_fold_cons_none ray t_min s rest closest (some h0) hs]
      exact ih closest h0

/-- The fold (started with no best hit) returns none exactly when every member
misses in the queried interval. -/
theorem hit_fold_none_iff (ray : Ray) (t_min : ℝ) (l : List Sphere) :
    ∀ closest : ℝ,
      (hit_fold ray t_min l closest none = none ↔
        ∀ s ∈ l, s.is_hit ray t_min closest = none) := by
  induction l with
  | nil => intro closest; simp [hit_fold]
  | cons s rest ih =>
    intro closest
    cases hs : s.is_hit ray t_min closest with
    | some hrec =>
      rw [hit_fold_cons_some ray t_min s rest closest none hrec hs]
      constructor
      · intro hcontra
        have hS := hit_fold_isSome ray t_min rest hrec.t hrec
        rw [hcontra] at hS
        simp at hS
      · intro hall
        have hcon := hall s (List.mem_cons_self s rest)
        rw [hcon] at hs
        cases hs
    | none =>
      rw [hit_fold_cons_none ray t_min s rest closest none hs, ih closest]
      simp only [List.mem_cons]
      constructor
      · rintro hall s' (rfl | hmem)
        · exact hs
        · exact hall s' hmem
      · intro hall s' hmem
        exact hall s' (Or.inr hmem)

/-- A hit returned by the fold is the initial best or a genuine hit of some
member under the initial bound. -/
theorem hit_fold_mem (ray : Ray) (t_min : ℝ) (l : List Sphere) :
    ∀ (closest : ℝ) (best : Option HitRecord) (h : HitRecord),
      hit_fold ray t_min l closest best = some h →
      best = some h ∨ ∃ s ∈ l, s.is_hit ray t_min closest = some h := by
  induction l with
  | nil =>
    intro closest best h hh
    rw [hit_fold] at hh
    exact Or.inl hh
  | cons s rest ih =>
    intro closest best h hh
    cases hs : s.is_hit ray t_min closest with
    | some hrec =>
      rw [hit_fold_cons_some ray t_min s rest closest best hrec hs] at hh
      rcases ih hrec.t (some hrec) h hh with heq | ⟨s', hmem, hs'⟩
      · cases heq
        exact Or.inr ⟨s, List.mem_cons_self s rest, hs⟩
      · have hb := (s.is_hit_t_bounds ray t_min closest hrec hs).2
        exact Or.inr ⟨s', List.mem_cons_of_mem s hmem,
          s'.is_hit_widen ray t_min hrec.t closest (le_of_lt hb) h hs'⟩
    | none =>
      rw [hit_fold_cons_none ray t_min s rest closest best hs] at hh
      rcases ih closest best h hh with heq | ⟨s', hmem, hs'⟩
      · exact Or.inl heq
      · exact Or.inr ⟨s', List.mem_cons_of_mem s hmem, hs'⟩

/-- The fold's result minimises t: it is at most the initial best's t and at
most the t of any member's hit under the initial bound. -/
theorem hit_fold_min (ray : Ray) (t_min : ℝ) (l : List Sphere) :
    ∀ (closest : ℝ) (best : Option HitRecord) (h : HitRecord),
      (∀ hb, best = some hb → closest ≤ hb.t) →
      hit_fold ray t_min l closest best = some h →
      (∀ hb, best = some hb → h.t ≤ hb.t) ∧
      (∀ s ∈ l, ∀ h', s.is_hit ray t_min closest = some h' → h.t ≤ h'.t) := by
  induction l with
  | nil =>
    intro closest best h hbc hh
    rw [hit_fold] at hh
    refine ⟨fun hb hbeq => ?_, by simp⟩
    rw [hh] at hbeq
    cases hbeq
    exact le_refl _
  | cons s rest ih =>
    intro closest best h hbc hh
    cases hs : s.is_hit ray t_min closest with
    | some hrec =>
      rw [hit_fold_cons_some ray t_min s rest closest best hrec hs] at hh
      have hlt : hrec.t < closest := (s.is_hit_t_bounds ray t_min closest hrec hs).2
      have hbc' : ∀ hb, some hrec = some hb → hrec.t ≤ hb.t := by
        intro hb hbeq
        cases hbeq
        exact le_refl _
      obtain ⟨hA, hB⟩ := ih hrec.t (some hrec) h hbc' hh
      have hhr : h.t ≤ hrec.t := hA hrec rfl
      constructor
      · intro hb hbeq
        have := hbc hb hbeq
        linarith
      · intro s' hmem h' hs'
        rcases List.mem_cons.mp hmem with rfl | hmem'
        · rw [hs] at hs'
          cases hs'
          exact hhr
        · rcases lt_or_le h'.t hrec.t with hcase | hcase
          · exact hB s' hmem' h'
              (s'.is_hit_narrow ray t_min hrec.t closest (le_of_lt hlt) h' hs' hcase)
          · linarith
    | none =>
      rw [hit_fold_cons_none ray t_min s rest closest best hs] at hh
      obtain ⟨hA, hB⟩ := ih closest best h hbc hh
      refine ⟨hA, fun s' hmem h' hs' => ?_⟩
      rcases List.mem_cons.mp hmem with rfl | hmem'
      · rw [hs] at hs'
        cases hs'
      · exact hB s' hmem' h' hs'

/-- C2 (amended): `HittableList::is_hit` returns a hit of minimal parametric
distance t among the members' valid hits, returns none exactly when no member
hits in range, and both the presence of a hit and its t value are invariant
under any permutation of the member list (the full hit record itself can differ
under permutation when two members tie at the minimal t — see the
counterexample). -/
theorem claim_C2_closest_hit (l l' : List Sphere) (ray : Ray) (t_min t_max : ℝ)
    (hperm : l.Perm l') :
    (HittableList.is_hit l ray t_min t_max = none ↔
      ∀ s ∈ l, s.is_hit ray t_min t_max = none) ∧
    (∀ h, HittableList.is_hit l ray t_min t_max = some h →
      (∃ s ∈ l, s.is_hit ray t_min t_max = some h) ∧
      ∀ s ∈ l, ∀ h', s.is_hit ray t_min t_max = some h' → h.t ≤ h'.t) ∧
    (HittableList.is_hit l ray t_min t_max).map HitRecord.t =
      (HittableList.is_hit l' ray t_min t_max).map HitRecord.t := by
  have key : ∀ m : List Sphere,
      (HittableList.is_hit m ray t_min t_max = none ↔
        ∀ s ∈ m, s.is_hit ray t_min t_max = none) ∧
      (∀ h, HittableList.is_hit m ray t_min t_max = some h →
        (∃ s ∈ m, s.is_hit ray t_min t_max = some h) ∧
        ∀ s ∈ m, ∀ h', s.is_hit ray t_min t_max = some h' → h.t ≤ h'.t) := by
    intro m
    refine ⟨hit_fold_none_iff ray t_min m t_max, fun h hh => ⟨?_, ?_⟩⟩
    · rcases hit_fold_mem ray t_min m t_max none h hh with heq | hex
      · simp at heq
      · exact hex
    · exact (hit_fold_min ray t_min m t_max none h
        (by intro hb hbeq; cases hbeq) hh).2
  refine ⟨(key l).1, (key l).2, ?_⟩
  cases hl : HittableList.is_hit l ray t_min t_max with
  | none =>
    have hl' : HittableList.is_hit l' ray t_min t_max = none := by
      rw [(key l').1]
      intro s hs
      exact ((key l).1.mp hl) s (hperm.mem_iff.mpr hs)
    rw [hl']
  | some h =>
    cases hl' : HittableList.is_hit l' ray t_min t_max with
    | none =>
      exfalso
      have hall := (key l').1.mp hl'
      have hnone : HittableList.is_hit l ray t_min t_max = none := by
        rw [(key l).1]
        intro s hs
        exact hall s (hperm.mem_iff.mp hs)
      rw [hnone] at hl
      cases hl
    | some h' =>
      obtain ⟨⟨s1, hmem1, hhit1⟩, hmin1⟩ := (key l).2 h hl
      obtain ⟨⟨s2, hmem2, hhit2⟩, hmin2⟩ := (key l').2 h' hl'
      have h1 : h.t ≤ h'.t := hmin1 s2 (hperm.mem_iff.mpr hmem2) h' hhit2
      have h2 : h'.t ≤ h.t := hmin2 s1 (hperm.mem_iff.mp hmem1) h hhit1
      simp [le_antisymm h1 h2]

/-- Concrete sphere hit head-on at t = 1 by `ray_c2`. -/
def sphere_a : Sphere := ⟨⟨0, 0, -2⟩, 1⟩

/-- Concrete sphere touched tangentially at t = 1 by `ray_c2`. -/
def sphere_b : Sphere := ⟨⟨1, 0, -1⟩, 1⟩

/-- Concrete ray from the origin along -z, hitting both spheres at t = 1. -/
def ray_c2 : Ray := ⟨⟨0, 0, 0⟩, ⟨0, 0, -1⟩⟩

/-- C2 counterexample: the two member spheres tie at t = 1 with different
normals, so the returned hit record depends on insertion order — full
permutation invariance of the returned hit is false as stated (only the
presence of a hit and its t are invariant). -/
theorem claim_C2_counterexample :
    [sphere_a, sphere_b].Perm [sphere_b, sphere_a] ∧
    HittableList.is_hit [sphere_a, sphere_b] ray_c2 0 100 ≠
      HittableList.is_hit [sphere_b, sphere_a] ray_c2 0 100 := by
  have hsqrt4 : Real.sqrt 4 = 2 := by
    rw [show (4 : ℝ) = 2 ^ 2 by norm_num, Real.sqrt_sq (by norm_num : (0 : ℝ) ≤ 2)]
  have hdA : sphere_a.discriminant ray_c2 = 4 := by
    norm_num [Sphere.discriminant, Sphere.qa, Sphere.qb, Sphere.qc, Sphere.oc,
      Vec3.dot, sphere_a, ray_c2]
  have hr1A : sphere_a.root1 ray_c2 = 1 := by
    unfold Sphere.root1
    rw [hdA, hsqrt4]
    norm_num [Sphere.qa, Sphere.qb, Sphere.oc, Vec3.dot, sphere_a, ray_c2]
  have hr2A : sphere_a.root2 ray_c2 = 3 := by
    unfold Sphere.root2
    rw [hdA, hsqrt4]
    norm_num [Sphere.qa, Sphere.qb, Sphere.oc, Vec3.dot, sphere_a, ray_c2]
  have hdB : sphere_b.discriminant ray_c2 = 0 := by
    norm_num [Sphere.discriminant, Sphere.qa, Sphere.qb, Sphere.qc, Sphere.oc,
      Vec3.dot, sphere_b, ray_c2]
  have hr1B : sphere_b.root1 ray_c2 = 1 := by
    unfold Sphere.root1
    rw [hdB, Real.sqrt_zero]
    norm_num [Sphere.qa, Sphere.qb, Sphere.oc, Vec3.dot, sphere_b, ray_c2]
  have hr2B : sphere_b.root2 ray_c2 = 1 := by
    unfold Sphere.root2
    rw [hdB, Real.sqrt_zero]
    norm_num [Sphere.qa, Sphere.qb, Sphere.oc, Vec3.dot, sphere_b, ray_c2]
  have hA : sphere_a.is_hit ray_c2 0 100 = some ⟨1, ⟨0, 0, -1⟩, ⟨0, 0, 1⟩⟩ := by
    unfold Sphere.is_hit
    rw [hdA, hr1A, if_neg (by norm_num), if_pos (by norm_num)]
    norm_num [Sphere.hit_record_at, Ray.point_at_parameter, sphere_a, ray_c2]
  have hB : sphere_b.is_hit ray_c2 0 100 = some ⟨1, ⟨0, 0, -1⟩, ⟨-1, 0, 0⟩⟩ := by
    unfold Sphere.is_hit
    rw [hdB, hr1B, if_neg (by norm_num), if_pos (by norm_num)]
    norm_num [Sphere.hit_record_at, Ray.point_at_parameter, sphere_b, ray_c2]
  have hA1 : sphere_a.is_hit ray_c2 0 1 = none := by
    unfold Sphere.is_hit
    rw [hdA, hr1A, hr2A, if_neg (by norm_num), if_neg (by norm_num),
      if_neg (by norm_num)]
  have hB1 : sphere_b.is_hit ray_c2 0 1 = none := by
    unfold Sphere.is_hit
    rw [hdB, hr1B, hr2B, if_neg (by norm_num), if_neg (by norm_num),
      if_neg (by norm_num)]
  have hLA : HittableList.is_hit [sphere_a, sphere_b] ray_c2 0 100 =
      some ⟨1, ⟨0, 0, -1⟩, ⟨0, 0, 1⟩⟩ := by
    unfold HittableList.is_hit
    rw [hit_fold_cons_some ray_c2 0 sphere_a [sphere_b] 100 none
      ⟨1, ⟨0, 0, -1⟩, ⟨0, 0, 1⟩⟩ hA]
    rw [show (⟨1, ⟨0, 0, -1⟩, ⟨0, 0, 1⟩⟩ : HitRecord).t = 1 from rfl]
    rw [hit_fold_cons_none ray_c2 0 sphere_b []  1 _ hB1]
    rfl
  have hLB : HittableList.is_hit [sphere_b, sphere_a] ray_c2 0 100 =
      some ⟨1, ⟨0, 0, -1⟩, ⟨-1, 0, 0⟩⟩ := by
    unfold HittableList.is_hit
    rw [hit_fold_cons_some ray_c2 0 sphere_b [sphere_a] 100 none
      ⟨1, ⟨0, 0, -1⟩, ⟨-1, 0, 0⟩⟩ hB]
    rw [show (⟨1, ⟨0, 0, -1⟩, ⟨-1, 0, 0⟩⟩ : HitRecord).t = 1 from rfl]
    rw [hit_fold_cons_none ray_c2 0 sphere_a []  1 _ hA1]
    rfl
  refine ⟨List.Perm.swap _ _ _, ?_⟩
  rw [hLA, hLB]
  intro hcontra
  have hnormals := congrArg (fun o => (Option.map HitRecord.normal o)) hcontra
  simp only [Option.map_some] at hnormals
  have hx := congrArg (fun o => o.map Vec3.x) hnormals
  simp at hx

/-- Witness for C2 (amended), applying it to the tying two-sphere scene in both
orders: the permutation hypothesis is discharged by the explicit swap, and the
t of the result is order-independent even though the records differ. -/
theorem claim_C2_witness :
    [sphere_a, sphere_b].Perm [sphere_b, sphere_a] ∧
    (HittableList.is_hit [sphere_a, sphere_b] ray_c2 0 100).map HitRecord.t =
      (HittableList.is_hit [sphere_b, sphere_a] ray_c2 0 100).map HitRecord.t :=
  ⟨List.Perm.swap _ _ _,
    (claim_C2_closest_hit [sphere_a, sphere_b] [sphere_b, sphere_a] ray_c2 0 100
      (List.Perm.swap _ _ _)).2.2⟩
